import Mathlib

/-!
Verification of `git_test_v2.py`, an electricity-market data-analysis script.

The script builds a 168-row hourly table of synthetic price / volume / load
data (numpy draws with a fixed seed), computes descriptive statistics,
detects price spikes, measures the price/load correlation, aggregates by
hour of day, and writes three output files (a CSV table, a JSON summary and
a text report).

The embedding is parametric in the raw pseudo-random draws (`RawDraws`):
the numpy generator is a library whose exact bit-stream is outside the
program text, so every theorem quantifies over the draws and captures the
transformations the script itself applies to them.
-/

namespace GitTestV2

open Real

/-- Round to the nearest integer with ties to even, the rounding used by
`numpy.round` / `ndarray.round`.  Away from ties it agrees with Lean's
`round` (nearest, ties up); at a tie (`Int.fract x = 1/2`) it picks the even
neighbour, which is `2 * round (x / 2)`. -/
noncomputable def rne (x : ℝ) : ℤ :=
  if Int.fract x = 1 / 2 then 2 * round (x / 2) else round x

/-- `x.round(d)` for a float array entry: round `x` to `d` decimal places. -/
noncomputable def roundTo (d : ℕ) (x : ℝ) : ℝ :=
  (rne (x * 10 ^ d) : ℝ) / 10 ^ d

/-- `ndarray.clip(lo, hi)` on one entry: clamp `x` into `[lo, hi]`. -/
noncomputable def clip (lo hi x : ℝ) : ℝ :=
  max lo (min x hi)

/-- A pandas timestamp, to the resolution the script uses (whole hours). -/
structure Timestamp where
  year : ℕ
  month : ℕ
  day : ℕ
  hour : ℕ
deriving DecidableEq

/-- Advance a timestamp by `k` whole hours.  Valid while the result stays
inside the starting month (the script only ever covers 2024-01-01 to
2024-01-07, well inside January). -/
def addHours (t : Timestamp) (k : ℕ) : Timestamp :=
  ⟨t.year, t.month, t.day + (t.hour + k) / 24, (t.hour + k) % 24⟩

/-- Midnight on 2024-01-01, the start passed to `pd.date_range`. -/
def startTs : Timestamp := ⟨2024, 1, 1, 0⟩

/-- `pd.date_range('2024-01-01', periods=168, freq='H')`: row `i` of the
table is stamped `i` hours after midnight on 2024-01-01. -/
def dates (i : Fin 168) : Timestamp := addHours startTs i

/-- `Series.dt.hour`: the hour-of-day component of a timestamp. -/
def dtHour (t : Timestamp) : ℕ := t.hour

/-- The `data['hour']` column added by the script:
`data['hour'] = data['timestamp'].dt.hour`. -/
def hourCol (i : Fin 168) : ℕ := dtHour (dates i)

/-- The raw seeded pseudo-random draws the script starts from:
`np.random.normal(350, 80, 168)`, `np.random.randint(800, 6000, 168)` and
`np.random.normal(12000, 3000, 168)`.  `np.random.seed(42)` fixes them, so a
run of the script corresponds to one fixed value of this structure. -/
structure RawDraws where
  rawPrice : Fin 168 → ℝ
  rawVolume : Fin 168 → ℤ
  rawLoad : Fin 168 → ℝ

/-- The diurnal modulation factor `1 + 0.1 * np.sin(2 * np.pi * i / 24)`
applied to the price column (row index `i`). -/
noncomputable def modFactor (i : ℕ) : ℝ :=
  1 + 0.1 * Real.sin (2 * π * i / 24)

/-- The `price` column: the normal draw is clipped to `[100, 800]`, rounded
to 2 decimals, then multiplied by the diurnal factor. -/
noncomputable def price (r : RawDraws) (i : Fin 168) : ℝ :=
  roundTo 2 (clip 100 800 (r.rawPrice i)) * modFactor i

/-- The `volume` column: the integer draw, unchanged. -/
def volume (r : RawDraws) (i : Fin 168) : ℤ := r.rawVolume i

/-- The `load` column: the normal draw rounded to 1 decimal. -/
noncomputable def load (r : RawDraws) (i : Fin 168) : ℝ :=
  roundTo 1 (r.rawLoad i)

/-- `Series.mean()` of a length-168 column. -/
noncomputable def colMean (x : Fin 168 → ℝ) : ℝ :=
  (∑ i, x i) / 168

/-- `Series.std()` of a length-168 column (pandas default `ddof = 1`). -/
noncomputable def colStd (x : Fin 168 → ℝ) : ℝ :=
  Real.sqrt ((∑ i, (x i - colMean x) ^ 2) / 167)

/-- `price_mean = data['price'].mean()`. -/
noncomputable def price_mean (r : RawDraws) : ℝ := colMean (price r)

/-- `price_std = data['price'].std()`. -/
noncomputable def price_std (r : RawDraws) : ℝ := colStd (price r)

open Classical in
/-- `price_spikes = data[data['price'] > price_mean + 2 * price_std]`:
the rows of the table whose price strictly exceeds the threshold, in row
order. -/
noncomputable def price_spikes (r : RawDraws) : List (Fin 168) :=
  (List.finRange 168).filter
    (fun i => decide (price r i > price_mean r + 2 * price_std r))

/-- `data.groupby('hour')`: the rows whose `hour` column equals `h`. -/
def hourlyGroup (h : ℕ) : Finset (Fin 168) :=
  Finset.univ.filter (fun i => hourCol i = h)

/-- One cell of `hourly_stats = data.groupby('hour').agg({... 'mean'}).round(2)`:
the mean of column `x` over the rows of hour `h`, rounded to 2 decimals. -/
noncomputable def hourlyMean (x : Fin 168 → ℝ) (h : ℕ) : ℝ :=
  roundTo 2 ((∑ i ∈ hourlyGroup h, x i) / (hourlyGroup h).card)

/-- The `price` column of `hourly_stats`. -/
noncomputable def hourlyPrice (r : RawDraws) (h : ℕ) : ℝ :=
  hourlyMean (price r) h

/-- The `volume` column of `hourly_stats` (integer volumes averaged as
reals). -/
noncomputable def hourlyVolume (r : RawDraws) (h : ℕ) : ℝ :=
  hourlyMean (fun i => (volume r i : ℝ)) h

/-- The `load` column of `hourly_stats`. -/
noncomputable def hourlyLoad (r : RawDraws) (h : ℕ) : ℝ :=
  hourlyMean (load r) h

open Classical in
/-- Fold behind `Series.idxmax`: scan the remaining index labels, replacing
the current best only on a strictly larger value, so the first maximiser
wins. -/
noncomputable def idxmaxAux (f : ℕ → ℝ) : List ℕ → ℕ → ℕ
  | [], best => best
  | a :: rest, best => idxmaxAux f rest (if f best < f a then a else best)

open Classical in
/-- Fold behind `Series.idxmin`: first minimiser wins. -/
noncomputable def idxminAux (f : ℕ → ℝ) : List ℕ → ℕ → ℕ
  | [], best => best
  | a :: rest, best => idxminAux f rest (if f a < f best then a else best)

/-- `hourly_stats['price'].idxmax()`: the group index of `hourly_stats` is
the sorted hours 0..23 (every hour of day occurs in the week). -/
noncomputable def idxmaxHours (f : ℕ → ℝ) : ℕ :=
  idxmaxAux f (List.range' 1 23) 0

/-- `hourly_stats['price'].idxmin()`. -/
noncomputable def idxminHours (f : ℕ → ℝ) : ℕ :=
  idxminAux f (List.range' 1 23) 0

/-- `peak_hour = hourly_stats['price'].idxmax()`. -/
noncomputable def peak_hour (r : RawDraws) : ℕ := idxmaxHours (hourlyPrice r)

/-- `valley_hour = hourly_stats['price'].idxmin()`. -/
noncomputable def valley_hour (r : RawDraws) : ℕ := idxminHours (hourlyPrice r)

/-- Sample covariance of two columns (`ddof = 1`), the quantity pandas
divides by the two standard deviations to get `Series.corr`. -/
noncomputable def colCov (x y : Fin 168 → ℝ) : ℝ :=
  (∑ i, (x i - colMean x) * (y i - colMean y)) / 167

/-- `Series.corr` (default method, Pearson): sample covariance divided by
the product of the sample standard deviations. -/
noncomputable def corrCol (x y : Fin 168 → ℝ) : ℝ :=
  colCov x y / (colStd x * colStd y)

/-- `correlation = data['price'].corr(data['load'])`. -/
noncomputable def correlation (r : RawDraws) : ℝ :=
  corrCol (price r) (load r)

/-- The Pearson correlation coefficient as the spec describes it: the
textbook formula `Σ dx·dy / (√(Σ dx²) · √(Σ dy²))` over the two columns
(the `ddof` normalisations cancel). -/
noncomputable def specPearson (x y : Fin 168 → ℝ) : ℝ :=
  (∑ i, (x i - colMean x) * (y i - colMean y)) /
    (Real.sqrt (∑ i, (x i - colMean x) ^ 2) *
      Real.sqrt (∑ i, (y i - colMean y) ^ 2))

/-- `Series.min()` of a column. -/
noncomputable def colMin (x : Fin 168 → ℝ) : ℝ :=
  Finset.univ.inf' Finset.univ_nonempty x

/-- `Series.max()` of a column. -/
noncomputable def colMax (x : Fin 168 → ℝ) : ℝ :=
  Finset.univ.sup' Finset.univ_nonempty x

open Classical in
/-- The column's values in ascending order, as used by `Series.quantile`. -/
noncomputable def sortedCol (x : Fin 168 → ℝ) : List ℝ :=
  ((List.finRange 168).map x).mergeSort (fun a b => decide (a ≤ b))

/-- `Series.quantile(q)` with the default linear interpolation on the 168
sorted values: position `p = q·167`, interpolate between the neighbouring
order statistics. -/
noncomputable def colQuantile (x : Fin 168 → ℝ) (q : ℝ) : ℝ :=
  let s := sortedCol x
  let p := q * 167
  s.getD ⌊p⌋.toNat 0 +
    (p - ⌊p⌋) * (s.getD (⌊p⌋.toNat + 1) 0 - s.getD ⌊p⌋.toNat 0)

/-- `Series.median()` = `quantile(0.5)`. -/
noncomputable def colMedian (x : Fin 168 → ℝ) : ℝ :=
  colQuantile x (1 / 2)

/-- `total_volume = int(data['volume'].sum())`. -/
def totalVolume (r : RawDraws) : ℤ := ∑ i, volume r i

/-- `data['timestamp'].min()`: the range is increasing hourly, so its
minimum is its first entry. -/
def periodStart : Timestamp := dates 0

/-- `data['timestamp'].max()`: the last entry of the increasing range. -/
def periodEnd : Timestamp := dates 167

/-- The `summary` dictionary written to `analysis_summary.json`.
`analysisTime` holds `datetime.now().isoformat()`; the price statistics are
rounded to 2 decimals and the correlation to 3, as in the script. -/
structure Summary where
  analysisTime : String
  periodStart : Timestamp
  periodEnd : Timestamp
  priceMean : ℝ
  priceMedian : ℝ
  priceStd : ℝ
  priceMin : ℝ
  priceMax : ℝ
  priceQ1 : ℝ
  priceQ3 : ℝ
  correlation : ℝ
  totalVolume : ℤ
  peakHour : ℕ
  valleyHour : ℕ

/-- The values written to `analysis_report.txt`.  `analysisTime` holds
`str(datetime.now())`; the numeric fields are the unrounded values the
report formats. -/
structure Report where
  analysisTime : String
  periodStart : Timestamp
  periodEnd : Timestamp
  avgPrice : ℝ
  volatility : ℝ
  spikeCount : ℕ
  totalVolume : ℤ

/-- The table written by `data.to_csv('power_analysis_results.csv')`: by the
time of the write the table has the `hour` column added. -/
structure CsvTable where
  timestamp : Fin 168 → Timestamp
  price : Fin 168 → ℝ
  volume : Fin 168 → ℤ
  load : Fin 168 → ℝ
  hour : Fin 168 → ℕ

/-- Content of one output file. -/
inductive FileContent where
  | table : CsvTable → FileContent
  | json : Summary → FileContent
  | text : Report → FileContent

/-- The CSV artifact's content. -/
noncomputable def csvOf (r : RawDraws) : CsvTable :=
  ⟨dates, price r, volume r, load r, hourCol⟩

/-- The JSON summary, as a function of the draws and of the wall-clock
string `now` (the one run-dependent input). -/
noncomputable def summaryOf (r : RawDraws) (now : String) : Summary where
  analysisTime := now
  periodStart := periodStart
  periodEnd := periodEnd
  priceMean := roundTo 2 (colMean (price r))
  priceMedian := roundTo 2 (colMedian (price r))
  priceStd := roundTo 2 (colStd (price r))
  priceMin := roundTo 2 (colMin (price r))
  priceMax := roundTo 2 (colMax (price r))
  priceQ1 := roundTo 2 (colQuantile (price r) (1 / 4))
  priceQ3 := roundTo 2 (colQuantile (price r) (3 / 4))
  correlation := roundTo 3 (correlation r)
  totalVolume := totalVolume r
  peakHour := peak_hour r
  valleyHour := valley_hour r

/-- The text report's values, as a function of the draws and of `now`. -/
noncomputable def reportOf (r : RawDraws) (now : String) : Report where
  analysisTime := now
  periodStart := periodStart
  periodEnd := periodEnd
  avgPrice := colMean (price r)
  volatility := colStd (price r) / colMean (price r)
  spikeCount := (price_spikes r).length
  totalVolume := totalVolume r

/-- The three files a run writes, in write order, with their names.  These
writes are the script's only side effects on durable state. -/
noncomputable def outputFiles (r : RawDraws) (now : String) :
    List (String × FileContent) :=
  [("power_analysis_results.csv", .table (csvOf r)),
   ("analysis_summary.json", .json (summaryOf r now)),
   ("analysis_report.txt", .text (reportOf r now))]

/-- Blank out the `analysisTime` fields, the only run-time-dependent data in
the artifacts. -/
noncomputable def scrubTime : FileContent → FileContent
  | .table t => .table t
  | .json s => .json { s with analysisTime := "" }
  | .text rp => .text { rp with analysisTime := "" }

/-- A concrete assignment of draws used to instantiate universally
quantified theorems: every price draw is 350, every volume draw 800, every
load draw 12000. -/
def constDraws : RawDraws :=
  ⟨fun _ => 350, fun _ => 800, fun _ => 12000⟩

/-- Column `ser` is the raw series `raw` carrying the diurnal sinusoidal
modulation: every row is the raw value times the 24-hour-period factor
`1 + 0.1·sin(2π·i/24)`. -/
def diurnallyModulated (raw ser : Fin 168 → ℝ) : Prop :=
  ∀ i : Fin 168, ser i = raw i * modFactor i

/-! ### Helper lemmas -/

lemma floor_le_rne (x : ℝ) : ⌊x⌋ ≤ rne x := by
  unfold rne
  split_ifs with h
  · have hx : x = (⌊x⌋ : ℝ) + 1 / 2 := by
      conv_lhs => rw [← Int.floor_add_fract x]
      rw [h]
    rcases Int.even_or_odd ⌊x⌋ with ⟨m, hm⟩ | ⟨m, hm⟩
    · have h2 : x / 2 = (m : ℝ) + 1 / 4 := by
        rw [hx, hm]; push_cast; ring
      have h3 : round (x / 2) = m := by
        rw [round_eq, h2]
        have : (m : ℝ) + 1 / 4 + 1 / 2 = (m : ℝ) + 3 / 4 := by ring
        rw [this, Int.floor_int_add]
        have : ⌊(3 / 4 : ℝ)⌋ = 0 := by
          rw [Int.floor_eq_zero_iff]; constructor <;> norm_num
        omega
      rw [h3]; omega
    · have h2 : x / 2 = (m : ℝ) + 3 / 4 := by
        rw [hx, hm]; push_cast; ring
      have h3 : round (x / 2) = m + 1 := by
        rw [round_eq, h2]
        have : (m : ℝ) + 3 / 4 + 1 / 2 = (m : ℝ) + 5 / 4 := by ring
        rw [this, Int.floor_int_add]
        have : ⌊(5 / 4 : ℝ)⌋ = 1 := by
          rw [Int.floor_eq_iff]; norm_num
        omega
      rw [h3]; omega
  · rw [round_eq]
    exact Int.floor_le_floor (by linarith)

lemma rne_le_ceil (x : ℝ) : rne x ≤ ⌈x⌉ := by
  unfold rne
  split_ifs with h
  · have hx : x = (⌊x⌋ : ℝ) + 1 / 2 := by
      conv_lhs => rw [← Int.floor_add_fract x]
      rw [h]
    have hceil : ⌈x⌉ = ⌊x⌋ + 1 := by
      rw [Int.ceil_eq_iff]
      push_cast
      constructor <;> linarith
    rcases Int.even_or_odd ⌊x⌋ with ⟨m, hm⟩ | ⟨m, hm⟩
    · have h2 : x / 2 = (m : ℝ) + 1 / 4 := by
        rw [hx, hm]; push_cast; ring
      have h3 : round (x / 2) = m := by
        rw [round_eq, h2]
        have : (m : ℝ) + 1 / 4 + 1 / 2 = (m : ℝ) + 3 / 4 := by ring
        rw [this, Int.floor_int_add]
        have : ⌊(3 / 4 : ℝ)⌋ = 0 := by
          rw [Int.floor_eq_zero_iff]; constructor <;> norm_num
        omega
      rw [h3]; omega
    · have h2 : x / 2 = (m : ℝ) + 3 / 4 := by
        rw [hx, hm]; push_cast; ring
      have h3 : round (x / 2) = m + 1 := by
        rw [round_eq, h2]
        have : (m : ℝ) + 3 / 4 + 1 / 2 = (m : ℝ) + 5 / 4 := by ring
        rw [this, Int.floor_int_add]
        have : ⌊(5 / 4 : ℝ)⌋ = 1 := by
          rw [Int.floor_eq_iff]; norm_num
        omega
      rw [h3]; omega
  · rw [round_eq]
    have h1 : x + 1 / 2 < (⌈x⌉ : ℝ) + 1 := by
      have := Int.le_ceil x; linarith
    have := Int.floor_lt.mpr (show x + 1 / 2 < ((⌈x⌉ + 1 : ℤ) : ℝ) by push_cast; linarith)
    omega

lemma rne_int_bounds {a b : ℤ} {x : ℝ} (h1 : (a : ℝ) ≤ x) (h2 : x ≤ (b : ℝ)) :
    a ≤ rne x ∧ rne x ≤ b :=
  ⟨le_trans (Int.le_floor.mpr h1) (floor_le_rne x),
   le_trans (rne_le_ceil x) (Int.ceil_le.mpr h2)⟩

lemma roundTo_bounds {a b : ℤ} (d : ℕ) {x : ℝ} (h1 : (a : ℝ) ≤ x) (h2 : x ≤ (b : ℝ)) :
    (a : ℝ) ≤ roundTo d x ∧ roundTo d x ≤ (b : ℝ) := by
  have hp : (0 : ℝ) < 10 ^ d := by positivity
  have h1' : ((a * 10 ^ d : ℤ) : ℝ) ≤ x * 10 ^ d := by
    push_cast; exact mul_le_mul_of_nonneg_right h1 hp.le
  have h2' : x * 10 ^ d ≤ ((b * 10 ^ d : ℤ) : ℝ) := by
    push_cast; exact mul_le_mul_of_nonneg_right h2 hp.le
  obtain ⟨hb1, hb2⟩ := rne_int_bounds h1' h2'
  unfold roundTo
  constructor
  · rw [le_div_iff₀ hp]
    calc (a : ℝ) * 10 ^ d = ((a * 10 ^ d : ℤ) : ℝ) := by push_cast; ring
      _ ≤ (rne (x * 10 ^ d) : ℝ) := by exact_mod_cast hb1
  · rw [div_le_iff₀ hp]
    calc (rne (x * 10 ^ d) : ℝ) ≤ ((b * 10 ^ d : ℤ) : ℝ) := by exact_mod_cast hb2
      _ = (b : ℝ) * 10 ^ d := by push_cast; ring

lemma clip_bounds {lo hi : ℝ} (h : lo ≤ hi) (x : ℝ) :
    lo ≤ clip lo hi x ∧ clip lo hi x ≤ hi :=
  ⟨le_max_left _ _, max_le h (min_le_right _ _)⟩

lemma modFactor_bounds (i : ℕ) : 0.9 ≤ modFactor i ∧ modFactor i ≤ 1.1 := by
  have h1 := Real.neg_one_le_sin (2 * π * i / 24)
  have h2 := Real.sin_le_one (2 * π * i / 24)
  unfold modFactor
  constructor <;> nlinarith

lemma idxmaxAux_spec (f : ℕ → ℝ) (l : List ℕ) :
    ∀ b : ℕ,
      (idxmaxAux f l b = b ∨ idxmaxAux f l b ∈ l) ∧
      f b ≤ f (idxmaxAux f l b) ∧ ∀ a ∈ l, f a ≤ f (idxmaxAux f l b) := by
  induction l with
  | nil => exact fun b => ⟨Or.inl rfl, le_refl _, by simp⟩
  | cons a rest ih =>
    intro b
    rw [idxmaxAux]
    obtain ⟨hmem, hge, hall⟩ := ih (if f b < f a then a else b)
    have hb2 : f b ≤ f (if f b < f a then a else b) ∧
        f a ≤ f (if f b < f a then a else b) := by
      by_cases hc : f b < f a
      · rw [if_pos hc]; exact ⟨hc.le, le_refl _⟩
      · rw [if_neg hc]; exact ⟨le_refl _, not_lt.mp hc⟩
    refine ⟨?_, le_trans hb2.1 hge, ?_⟩
    · rcases hmem with h | h
      · rw [h]
        by_cases hc : f b < f a
        · rw [if_pos hc]; exact Or.inr (List.mem_cons_self a rest)
        · rw [if_neg hc]; exact Or.inl rfl
      · exact Or.inr (List.mem_cons_of_mem a h)
    · intro c hc
      rcases List.mem_cons.mp hc with h | h
      · rw [h]; exact le_trans hb2.2 hge
      · exact hall c h

lemma idxminAux_spec (f : ℕ → ℝ) (l : List ℕ) :
    ∀ b : ℕ,
      (idxminAux f l b = b ∨ idxminAux f l b ∈ l) ∧
      f (idxminAux f l b) ≤ f b ∧ ∀ a ∈ l, f (idxminAux f l b) ≤ f a := by
  induction l with
  | nil => exact fun b => ⟨Or.inl rfl, le_refl _, by simp⟩
  | cons a rest ih =>
    intro b
    rw [idxminAux]
    obtain ⟨hmem, hge, hall⟩ := ih (if f a < f b then a else b)
    have hb2 : f (if f a < f b then a else b) ≤ f b ∧
        f (if f a < f b then a else b) ≤ f a := by
      by_cases hc : f a < f b
      · rw [if_pos hc]; exact ⟨hc.le, le_refl _⟩
      · rw [if_neg hc]; exact ⟨le_refl _, not_lt.mp hc⟩
    refine ⟨?_, le_trans hge hb2.1, ?_⟩
    · rcases hmem with h | h
      · rw [h]
        by_cases hc : f a < f b
        · rw [if_pos hc]; exact Or.inr (List.mem_cons_self a rest)
        · rw [if_neg hc]; exact Or.inl rfl
      · exact Or.inr (List.mem_cons_of_mem a h)
    · intro c hc
      rcases List.mem_cons.mp hc with h | h
      · rw [h]; exact le_trans hge hb2.2
      · exact hall c h

lemma idxmaxHours_lt (f : ℕ → ℝ) : idxmaxHours f < 24 := by
  unfold idxmaxHours
  rcases (idxmaxAux_spec f (List.range' 1 23) 0).1 with h | h
  · omega
  · have := List.mem_range'_1.mp h; omega

lemma idxmaxHours_ge (f : ℕ → ℝ) (h : Fin 24) : f h ≤ f (idxmaxHours f) := by
  unfold idxmaxHours
  obtain ⟨_, hge, hall⟩ := idxmaxAux_spec f (List.range' 1 23) 0
  rcases Nat.eq_zero_or_pos h.val with h0 | h0
  · rw [h0]; exact hge
  · exact hall h.val (List.mem_range'_1.mpr ⟨h0, by omega⟩)

lemma idxminHours_lt (f : ℕ → ℝ) : idxminHours f < 24 := by
  unfold idxminHours
  rcases (idxminAux_spec f (List.range' 1 23) 0).1 with h | h
  · omega
  · have := List.mem_range'_1.mp h; omega

lemma idxminHours_le (f : ℕ → ℝ) (h : Fin 24) : f (idxminHours f) ≤ f h := by
  unfold idxminHours
  obtain ⟨_, hge, hall⟩ := idxminAux_spec f (List.range' 1 23) 0
  rcases Nat.eq_zero_or_pos h.val with h0 | h0
  · rw [h0]; exact hge
  · exact hall h.val (List.mem_range'_1.mpr ⟨h0, by omega⟩)

lemma addHours_addHours (t : Timestamp) (k1 k2 : ℕ) :
    addHours (addHours t k1) k2 = addHours t (k1 + k2) := by
  simp only [addHours, Timestamp.mk.injEq, true_and]
  constructor <;> omega

lemma corrCol_eq_specPearson (x y : Fin 168 → ℝ) :
    corrCol x y = specPearson x y := by
  unfold corrCol specPearson colCov colStd
  have hA : (0 : ℝ) ≤ ∑ i, (x i - colMean x) ^ 2 :=
    Finset.sum_nonneg fun i _ => sq_nonneg _
  have hB : (0 : ℝ) ≤ ∑ i, (y i - colMean y) ^ 2 :=
    Finset.sum_nonneg fun i _ => sq_nonneg _
  rw [Real.sqrt_div hA, Real.sqrt_div hB]
  have hs : Real.sqrt 167 * Real.sqrt 167 = 167 :=
    Real.mul_self_sqrt (by norm_num)
  set S := ∑ i, (x i - colMean x) * (y i - colMean y)
  set sa := Real.sqrt (∑ i, (x i - colMean x) ^ 2)
  set sb := Real.sqrt (∑ i, (y i - colMean y) ^ 2)
  rw [div_mul_div_comm, hs]
  by_cases hab : sa * sb = 0
  · rw [hab, div_zero, zero_div, div_zero]
  · rw [div_div_div_eq]
    rw [show S * 167 / (167 * (sa * sb)) = S / (sa * sb) * (167 / 167) by ring]
    norm_num

/-! ### Claim theorems -/

/-- C1: a row is in the detected spike list exactly when its price strictly
exceeds the mean of the price column plus two standard deviations of the
price column; hence the detected spikes are precisely the rows satisfying
the threshold condition. -/
theorem spike_detection_matches_threshold (r : RawDraws) (i : Fin 168) :
    i ∈ price_spikes r ↔ price r i > colMean (price r) + 2 * colStd (price r) := by
  unfold price_spikes
  simp [List.mem_filter, price_mean, price_std]

/-- C2: each cell of the hourly aggregation is the arithmetic mean of the
price / volume / load values over exactly the rows whose timestamp has the
given hour of day, rounded to 2 decimals; the reported peak hour maximises
and the valley hour minimises the aggregated mean price over the 24 hours. -/
theorem hourly_aggregation_spec (r : RawDraws) :
    (∀ h : ℕ, hourlyPrice r h =
        roundTo 2 ((∑ i ∈ Finset.univ.filter fun i => dtHour (dates i) = h, price r i) /
          ((Finset.univ.filter fun i : Fin 168 => dtHour (dates i) = h).card : ℝ))) ∧
    (∀ h : ℕ, hourlyVolume r h =
        roundTo 2 ((∑ i ∈ Finset.univ.filter fun i => dtHour (dates i) = h,
            (volume r i : ℝ)) /
          ((Finset.univ.filter fun i : Fin 168 => dtHour (dates i) = h).card : ℝ))) ∧
    (∀ h : ℕ, hourlyLoad r h =
        roundTo 2 ((∑ i ∈ Finset.univ.filter fun i => dtHour (dates i) = h, load r i) /
          ((Finset.univ.filter fun i : Fin 168 => dtHour (dates i) = h).card : ℝ))) ∧
    (∀ h : Fin 24, hourlyPrice r h ≤ hourlyPrice r (peak_hour r)) ∧
    (∀ h : Fin 24, hourlyPrice r (valley_hour r) ≤ hourlyPrice r h) :=
  ⟨fun _ => rfl, fun _ => rfl, fun _ => rfl,
   fun h => idxmaxHours_ge (hourlyPrice r) h,
   fun h => idxminHours_le (hourlyPrice r) h⟩

/-- C3: the generated table has 168 rows (the index type), its first
timestamp is 2024-01-01 00:00, consecutive rows are one hour apart, and the
last timestamp is 2024-01-07 23:00, so the table covers exactly one week of
hourly samples. -/
theorem generated_week_timestamps :
    dates 0 = ⟨2024, 1, 1, 0⟩ ∧
    (∀ i : Fin 167, dates i.succ = addHours (dates i.castSucc) 1) ∧
    dates 167 = ⟨2024, 1, 7, 23⟩ := by
  refine ⟨by decide, fun i => ?_, by decide⟩
  show addHours startTs i.succ.val = addHours (addHours startTs i.castSucc.val) 1
  rw [addHours_addHours, Fin.val_succ, Fin.coe_castSucc]

/-- C4 (counterexample): byte-for-byte identical artifacts across runs is
false — two runs with the same seeded draws but different wall-clock times
write different artifacts, because `datetime.now()` is embedded in the JSON
summary and the text report. -/
theorem output_not_run_independent :
    outputFiles constDraws "2024-01-01T00:00:00" ≠
      outputFiles constDraws "2024-01-02T00:00:00" := by
  intro h
  have h1 := congrArg (fun l => l.get? 1) h
  simp only [outputFiles, List.get?, Option.some.injEq, Prod.mk.injEq,
    FileContent.json.injEq, true_and] at h1
  have h2 := congrArg Summary.analysisTime h1
  simp only [summaryOf] at h2
  exact absurd h2 (by decide)

/-- C4 (amended): execution is deterministic apart from the recorded
wall-clock time — for a fixed seed (fixed draws), two runs write the same
three artifacts with identical content except the `analysis_time` fields. -/
theorem output_deterministic_up_to_time (r : RawDraws) (t1 t2 : String) :
    (outputFiles r t1).map (fun p => (p.1, scrubTime p.2)) =
      (outputFiles r t2).map (fun p => (p.1, scrubTime p.2)) := rfl

/-- C5 (counterexample): it is false that all three generated series carry
the diurnal sinusoidal modulation — for the concrete draws `constDraws` the
volume column equals the raw draws and fails the modulation equation at row
6, where the factor is 1.1. -/
theorem volume_not_modulated :
    ¬ (diurnallyModulated (fun i => roundTo 2 (clip 100 800 (constDraws.rawPrice i)))
          (price constDraws) ∧
       diurnallyModulated (fun i => (constDraws.rawVolume i : ℝ))
          (fun i => (volume constDraws i : ℝ)) ∧
       diurnallyModulated (fun i => roundTo 1 (constDraws.rawLoad i))
          (load constDraws)) := by
  rintro ⟨-, hvol, -⟩
  have h6 := hvol 6
  simp only [volume, constDraws, modFactor] at h6
  have hval : ((6 : Fin 168) : ℕ) = 6 := rfl
  rw [hval] at h6
  have harg : 2 * π * ((6 : ℕ) : ℝ) / 24 = π / 2 := by push_cast; ring
  rw [harg, Real.sin_pi_div_two] at h6
  norm_num at h6

/-- C5 (amended): only the price series carries the diurnal modulation —
price is the clipped-and-rounded draw times the 24-hour-periodic factor,
while volume and load are the raw draws (load merely rounded to 1 decimal)
with no modulation; the factor has period 24 hours. -/
theorem only_price_diurnally_modulated (r : RawDraws) :
    diurnallyModulated (fun i => roundTo 2 (clip 100 800 (r.rawPrice i))) (price r) ∧
    (∀ i, volume r i = r.rawVolume i) ∧
    (∀ i, load r i = roundTo 1 (r.rawLoad i)) ∧
    (∀ i : ℕ, modFactor (i + 24) = modFactor i) := by
  refine ⟨fun i => rfl, fun i => rfl, fun i => rfl, fun i => ?_⟩
  unfold modFactor
  have harg : 2 * π * ((i : ℝ) + 24) / 24 = 2 * π * i / 24 + 2 * π := by ring
  rw [Nat.cast_add, Nat.cast_ofNat, harg, Real.sin_add_two_pi]

/-- C6: the computed correlation is the Pearson correlation coefficient of
the price and load columns, and the JSON summary's `correlation` field is
exactly this scalar rounded to 3 decimals. -/
theorem correlation_is_pearson_rounded (r : RawDraws) (now : String) :
    correlation r = specPearson (price r) (load r) ∧
    (summaryOf r now).correlation = roundTo 3 (specPearson (price r) (load r)) := by
  have h := corrCol_eq_specPearson (price r) (load r)
  exact ⟨h, congrArg (roundTo 3) h⟩

/-- C7: a run writes exactly three artifacts, in order the CSV table, the
JSON summary and the text report, and nothing else. -/
theorem three_output_artifacts (r : RawDraws) (now : String) :
    (outputFiles r now).map Prod.fst =
      ["power_analysis_results.csv", "analysis_summary.json", "analysis_report.txt"] ∧
    (outputFiles r now).length = 3 :=
  ⟨rfl, rfl⟩

/-- C8: every price in the generated table lies in [90, 880]: the clipped
draw lies in [100, 800], rounding to 2 decimals keeps it there, and the
diurnal factor lies in [0.9, 1.1]. -/
theorem price_range_invariant (r : RawDraws) (i : Fin 168) :
    90 ≤ price r i ∧ price r i ≤ 880 := by
  obtain ⟨hc1, hc2⟩ := clip_bounds (by norm_num : (100 : ℝ) ≤ 800) (r.rawPrice i)
  obtain ⟨hr1, hr2⟩ :=
    roundTo_bounds (a := 100) (b := 800) 2
      (by exact_mod_cast hc1) (by exact_mod_cast hc2)
  have hr1' : (100 : ℝ) ≤ roundTo 2 (clip 100 800 (r.rawPrice i)) := by exact_mod_cast hr1
  have hr2' : roundTo 2 (clip 100 800 (r.rawPrice i)) ≤ (800 : ℝ) := by exact_mod_cast hr2
  obtain ⟨hm1, hm2⟩ := modFactor_bounds (i : ℕ)
  unfold price
  constructor
  · calc (90 : ℝ) = 100 * 0.9 := by norm_num
      _ ≤ roundTo 2 (clip 100 800 (r.rawPrice i)) * modFactor (i : ℕ) :=
        mul_le_mul hr1' hm1 (by norm_num) (by linarith)
  · calc roundTo 2 (clip 100 800 (r.rawPrice i)) * modFactor (i : ℕ)
        ≤ 800 * 1.1 := mul_le_mul hr2' hm2 (by linarith) (by norm_num)
      _ = 880 := by norm_num

/-- C9: under the `randint(800, 6000)` contract every volume is an integer
in [800, 5999], and the reported total volume over the 168 rows lies in
[134400, 1007832]. -/
theorem volume_and_total_volume_range (r : RawDraws)
    (hv : ∀ i, 800 ≤ r.rawVolume i ∧ r.rawVolume i < 6000) :
    (∀ i, 800 ≤ volume r i ∧ volume r i ≤ 5999) ∧
    134400 ≤ totalVolume r ∧ totalVolume r ≤ 1007832 := by
  have h1 : ∀ i, 800 ≤ volume r i ∧ volume r i ≤ 5999 := fun i => by
    have := hv i; unfold volume; omega
  have hconst8 : (∑ _i : Fin 168, (800 : ℤ)) = 134400 := by
    rw [Finset.sum_const, Finset.card_univ, Fintype.card_fin, nsmul_eq_mul]
    norm_num
  have hconst5 : (∑ _i : Fin 168, (5999 : ℤ)) = 1007832 := by
    rw [Finset.sum_const, Finset.card_univ, Fintype.card_fin, nsmul_eq_mul]
    norm_num
  refine ⟨h1, ?_, ?_⟩
  · rw [← hconst8]
    exact Finset.sum_le_sum fun i _ => (h1 i).1
  · rw [← hconst5]
    exact Finset.sum_le_sum fun i _ => (h1 i).2

/-- C9 (witness): the hypothesis and conclusion instantiated at the concrete
draws `constDraws`. -/
theorem volume_and_total_volume_range_witness :
    (∀ i : Fin 168, 800 ≤ constDraws.rawVolume i ∧ constDraws.rawVolume i < 6000) ∧
    ((∀ i, 800 ≤ volume constDraws i ∧ volume constDraws i ≤ 5999) ∧
     134400 ≤ totalVolume constDraws ∧ totalVolume constDraws ≤ 1007832) :=
  have hv : ∀ i : Fin 168, 800 ≤ constDraws.rawVolume i ∧ constDraws.rawVolume i < 6000 :=
    fun _ => by norm_num [constDraws]
  ⟨hv, volume_and_total_volume_range constDraws hv⟩

/-- C10: the peak and valley hours written to the JSON summary are
hours of day, i.e. natural numbers at most 23. -/
theorem peak_valley_hour_range (r : RawDraws) (now : String) :
    (summaryOf r now).peakHour < 24 ∧ (summaryOf r now).valleyHour < 24 :=
  ⟨idxmaxHours_lt (hourlyPrice r), idxminHours_lt (hourlyPrice r)⟩

end GitTestV2
